import Mathlib

/-!
Verification of the pseudoku repository's core logic: the Sudoku grid
validator (`src/utils/sudokuValidator.ts`), the field-element rejection
sampler and proof codec (`src/utils/proofUtils.ts`, `worker.ts`), the
GitHub OAuth callback (`src/utils/githubOauth.ts`), and the proof
lifecycle gating (`worker.ts` together with the spec's state machine).

A grid is modelled as a total function `Nat → Nat → Nat`; the TypeScript
code only ever indexes rows and columns 0..8, which the scan lists below
reproduce.  JavaScript numbers in cells are naturals here (the UI only
writes digits 0..9).
-/

def Grid : Type := Nat → Nat → Nat

/-- Build a grid from row lists (out-of-range reads give 0, never reached
by the scans). -/
def gridOfLists (rows : List (List Nat)) : Grid :=
  fun i j => ((rows.getD i []).getD j 0)

/-- Pointwise update of one cell, used to state the clue-flip property. -/
def updateGrid (g : Grid) (r c v : Nat) : Grid :=
  fun i j => if i = r ∧ j = c then v else g i j

/-- The fixed challenge puzzle `CHALLENGE_PUZZLE` of `worker.ts` /
`CHALLENGE_PUZZLES.default` of `src/constants/index.ts`. -/
def CHALLENGE_PUZZLE : Grid := gridOfLists [
  [5, 3, 0, 0, 7, 0, 0, 0, 0],
  [6, 0, 0, 1, 9, 5, 0, 0, 0],
  [0, 9, 8, 0, 0, 0, 0, 6, 0],
  [8, 0, 0, 0, 6, 0, 0, 0, 3],
  [4, 0, 0, 8, 0, 3, 0, 0, 1],
  [7, 0, 0, 0, 2, 0, 0, 0, 6],
  [0, 6, 0, 0, 0, 0, 2, 8, 0],
  [0, 0, 0, 4, 1, 9, 0, 0, 5],
  [0, 0, 0, 0, 8, 0, 0, 7, 9]]

/-- The unique completion of the challenge puzzle (the canonical solved
grid whose row 0 is `[5,3,4,6,7,8,9,1,2]`), used as a concrete solution. -/
def SOLVED_PUZZLE : Grid := gridOfLists [
  [5, 3, 4, 6, 7, 8, 9, 1, 2],
  [6, 7, 2, 1, 9, 5, 3, 4, 8],
  [1, 9, 8, 3, 4, 2, 5, 6, 7],
  [8, 5, 9, 7, 6, 1, 4, 2, 3],
  [4, 2, 6, 8, 5, 3, 7, 9, 1],
  [7, 1, 3, 9, 2, 4, 8, 5, 6],
  [9, 6, 1, 5, 3, 7, 2, 8, 4],
  [2, 8, 7, 4, 1, 9, 6, 3, 5],
  [3, 4, 5, 2, 8, 6, 1, 7, 9]]

/-! ## SudokuValidator (src/utils/sudokuValidator.ts) -/

/-- `SudokuValidator.hasAllDigits`, inner loop: the JS `Set` is a
duplicate-free list, `seen.has` is `contains`, `seen.add` is cons. -/
def hasAllDigitsAux (seen : List Nat) : List Nat → Bool
  | [] => seen.length == 9
  | v :: rest =>
    if v < 1 ∨ 9 < v ∨ v ∈ seen then false
    else hasAllDigitsAux (v :: seen) rest

/-- `SudokuValidator.hasAllDigits`. -/
def hasAllDigits (arr : List Nat) : Bool := hasAllDigitsAux [] arr

/-- `grid[i]`: row `i` as the 9-element array the row checks receive. -/
def gridRow (g : Grid) (i : Nat) : List Nat := (List.range 9).map (g i)

/-- `SudokuValidator.getColumn`. -/
def getColumn (g : Grid) (col : Nat) : List Nat :=
  (List.range 9).map (fun i => g i col)

/-- `SudokuValidator.getBox`: box `b` has top-left `(⌊b/3⌋·3, (b%3)·3)`. -/
def getBox (g : Grid) (boxNum : Nat) : List Nat :=
  (List.range 3).flatMap (fun i =>
    (List.range 3).map (fun j => g (boxNum / 3 * 3 + i) (boxNum % 3 * 3 + j)))

/-- The violations `SudokuValidator.isValid` can report; each constructor
stands for one of its error messages (with the 1-based offsets of the
messages dropped, and the box's `(boxRow, boxCol)` message encoded by the
box number it is computed from). -/
inductive Violation where
  | emptyCell (row col : Nat)
  | invalidValue (row col : Nat)
  | dupRow (row : Nat)
  | dupCol (col : Nat)
  | dupBox (boxNum : Nat)
deriving DecidableEq

/-- The per-cell test of `isValid`'s first loop. -/
def cellCheck (g : Grid) (i j : Nat) : Option Violation :=
  if g i j = 0 then some (.emptyCell i j)
  else if g i j < 1 ∨ 9 < g i j then some (.invalidValue i j)
  else none

/-- First loop of `isValid`: row-major scan of all cells, first hit wins. -/
def cellScan (g : Grid) : Option Violation :=
  (List.range 9).findSome? fun i =>
    (List.range 9).findSome? fun j => cellCheck g i j

/-- Second loop of `isValid`: rows 0..8. -/
def rowScan (g : Grid) : Option Violation :=
  (List.range 9).findSome? fun i =>
    if hasAllDigits (gridRow g i) then none else some (.dupRow i)

/-- Third loop of `isValid`: columns 0..8. -/
def colScan (g : Grid) : Option Violation :=
  (List.range 9).findSome? fun j =>
    if hasAllDigits (getColumn g j) then none else some (.dupCol j)

/-- Fourth loop of `isValid`: boxes 0..8. -/
def boxScan (g : Grid) : Option Violation :=
  (List.range 9).findSome? fun b =>
    if hasAllDigits (getBox g b) then none else some (.dupBox b)

/-- `SudokuValidator.isValid`: the four early-returning scans in source
order; `none` is the `{valid: true}` result. -/
def isValid (g : Grid) : Option Violation :=
  (cellScan g).or ((rowScan g).or ((colScan g).or (boxScan g)))

/-- Conflict kinds of `SudokuValidator.getConflicts`. -/
inductive ConflictType where
  | row
  | column
  | box
deriving DecidableEq

/-- One entry of the list `getConflicts` returns. -/
structure Conflict where
  type : ConflictType
  position : Nat
deriving DecidableEq

/-- `SudokuValidator.getConflicts`.  Each source loop pushes at most one
entry with a payload not depending on the loop variables and breaks (the
box loop returns the list outright, which only cuts its own remaining
scan), so each loop is rendered as an existence test guarding one push. -/
def getConflicts (g : Grid) (row col value : Nat) : List Conflict :=
  let rowHit := (List.range 9).any fun j =>
    decide (j ≠ col) && decide (g row j = value)
  let colHit := (List.range 9).any fun i =>
    decide (i ≠ row) && decide (g i col = value)
  let boxRow := row / 3 * 3
  let boxCol := col / 3 * 3
  let boxHit := (List.range 3).any fun di => (List.range 3).any fun dj =>
    decide (boxRow + di ≠ row) && decide (boxCol + dj ≠ col) &&
      decide (g (boxRow + di) (boxCol + dj) = value)
  let boxNum := row / 3 * 3 + col / 3
  (if rowHit then [⟨.row, row⟩] else []) ++
    (if colHit then [⟨.column, col⟩] else []) ++
      (if boxHit then [⟨.box, boxNum⟩] else [])

/-- `SudokuValidator.matchesChallenge`. -/
def matchesChallenge (solution challenge : Grid) : Bool :=
  (List.range 9).all fun i => (List.range 9).all fun j =>
    if challenge i j ≠ 0 ∧ solution i j ≠ challenge i j then false else true

/-- `PseudokuGame.checkSolution` (worker.ts): completeness plus the row,
column and box checks; only the boolean outcome is modelled (its status
messages are UI). -/
def checkSolution (g : Grid) : Bool :=
  ((List.range 9).all fun i => (List.range 9).all fun j => g i j != 0) &&
    ((List.range 9).all fun i => hasAllDigits (gridRow g i)) &&
      ((List.range 9).all fun j => hasAllDigits (getColumn g j)) &&
        ((List.range 9).all fun b => hasAllDigits (getBox g b))

/-! ## FieldSampler (ProofUtils.generateFieldElement) -/

def MODULUS : Nat :=
  21888242871839275222246405745257275088548364400416034343698204186575808495617

/-- `bytes[0] &= 0x3f`: clear the top 2 bits of the most-significant byte. -/
def maskTopTwoBits : List Nat → List Nat
  | [] => []
  | b :: rest => (b &&& 0x3f) :: rest

/-- The big-endian accumulation `x = (x << 8n) | BigInt(bytes[i])`. -/
def beBytesToNat (bytes : List Nat) : Nat :=
  bytes.foldl (fun x b => (x <<< 8) ||| b) 0

/-- `ProofUtils.generateFieldElement`: rejection sampling.  `draws k` is
the content of the 32-byte buffer after the `k`-th `crypto.getRandomValues`
call; the unbounded `for(;;)` loop is given fuel, returning `none` only
when the fuel runs out before a draw is accepted. -/
def generateFieldElement (draws : Nat → List Nat) : Nat → Nat → Option Nat
  | _, 0 => none
  | k, fuel + 1 =>
    let x := beBytesToNat (maskTopTwoBits (draws k))
    if x < MODULUS then some x else generateFieldElement draws (k + 1) fuel

/-! ## ProofCodec: hex encoding (ProofUtils.prepareProofExport) and
decoding (PseudokuGame.performVerification, worker.ts) -/

/-- One hex digit of `b.toString(16)`: lowercase. -/
def hexChar (v : Nat) : Char :=
  if v < 10 then Char.ofNat ('0'.toNat + v) else Char.ofNat ('a'.toNat + v - 10)

/-- `b.toString(16).padStart(2, '0')` for a `Uint8Array` element
(`b < 256`): one digit gets a leading `'0'`, two digits stand alone. -/
def byteToHexChars (b : Nat) : List Char :=
  if b < 16 then ['0', hexChar b] else [hexChar (b / 16), hexChar (b % 16)]

/-- `Array.from(bytes).map(b => b.toString(16).padStart(2, '0')).join('')`. -/
def encodeProofHex (bytes : List Nat) : String :=
  ⟨bytes.flatMap byteToHexChars⟩

/-- The proof-export record (`ProofDataExport` of src/types/index.d.ts);
`timestamp` is wall-clock metadata and is not modelled. -/
structure ProofDataExport where
  challengeId : String
  proof : String
  publicInputs : List String
  timeInMs : Nat
deriving DecidableEq

/-- `ProofUtils.prepareProofExport`. -/
def prepareProofExport (proofBytes : List Nat) (publicInputs : List String)
    (challengeId : String) (timeInMs : Nat) : ProofDataExport :=
  ⟨challengeId, encodeProofHex proofBytes, publicInputs, timeInMs⟩

/-- The whitespace class of JS `\s` restricted to the characters that can
occur in the modelled strings. -/
def isWsChar (c : Char) : Bool :=
  c = ' ' || c = '\t' || c = '\n' || c = '\r'

/-- A character the regex `[0-9a-fA-F]` accepts. -/
def isHexDigitChar (c : Char) : Bool :=
  ('0' ≤ c && c ≤ '9') || ('a' ≤ c && c ≤ 'f') || ('A' ≤ c && c ≤ 'F')

/-- A lowercase hex digit, to state that the encoder emits lowercase. -/
def isLowerHexChar (c : Char) : Bool :=
  ('0' ≤ c && c ≤ '9') || ('a' ≤ c && c ≤ 'f')

/-- Numeric value `parseInt` assigns to a hex digit (0 on other input,
which the regex gate rules out). -/
def hexCharVal (c : Char) : Nat :=
  if '0' ≤ c && c ≤ '9' then c.toNat - '0'.toNat
  else if 'a' ≤ c && c ≤ 'f' then c.toNat - 'a'.toNat + 10
  else if 'A' ≤ c && c ≤ 'F' then c.toNat - 'A'.toNat + 10
  else 0

/-- `.trim()`: strip leading and trailing whitespace. -/
def trimWs (cs : List Char) : List Char :=
  ((cs.dropWhile isWsChar).reverse.dropWhile isWsChar).reverse

/-- `.replace(/^0x/, "")`: remove one leading `0x` if present. -/
def strip0x (cs : List Char) : List Char :=
  if cs.take 2 = ['0', 'x'] then cs.drop 2 else cs

/-- `cleanProofHex.match(/.{1,2}/g).map(b => parseInt(b, 16))`: chunks of
two characters (a final lone character parses alone, though the even-length
gate excludes it). -/
def hexPairsToBytes : List Char → List Nat
  | [] => []
  | [c] => [hexCharVal c]
  | c1 :: c2 :: rest => (hexCharVal c1 * 16 + hexCharVal c2) :: hexPairsToBytes rest

/-- Validation and byte conversion after cleaning: the regex
`/^[0-9a-fA-F]+$/` (nonempty, all hex digits) and the even-length check,
then the pair parse. -/
def decodeCleanHex (cs : List Char) : Option (List Nat) :=
  if cs ≠ [] ∧ cs.all isHexDigitChar ∧ cs.length % 2 = 0 then
    some (hexPairsToBytes cs)
  else none

/-- The proof-hex parsing of `PseudokuGame.performVerification`
(worker.ts): trim, strip an optional `0x`, drop whitespace, then reject
anything that is not a nonempty even-length string of hex digits. -/
def decodeProofHex (s : String) : Option (List Nat) :=
  decodeCleanHex ((strip0x (trimWs s.data)).filter (fun c => !isWsChar c))

/-- A proof artifact: proof bytes plus public-input strings (`ProofData`). -/
structure ProofArtifact where
  proof : List Nat
  publicInputs : List String
deriving DecidableEq

/-- Reconstruction of an artifact from an export, as
`performVerification` does before calling the verifier: hex-decode the
proof and keep the public inputs as given. -/
def toArtifact (e : ProofDataExport) : Option ProofArtifact :=
  match decodeProofHex e.proof with
  | some bs => some ⟨bs, e.publicInputs⟩
  | none => none

/-- `ProofUtils.hashProof`: hex of the first 32 bytes, then the first 8
and last 8 characters of that string around an ellipsis. -/
def hashProof (proof : List Nat) : String :=
  let proofStr := (proof.take 32).flatMap byteToHexChars
  ⟨proofStr.take 8 ++ ('.' :: '.' :: '.' :: proofStr.drop (proofStr.length - 8))⟩

/-! ## GitHubOAuth.handleCallback (src/utils/githubOauth.ts) -/

/-- The session storage the callback reads: the persisted `oauth_state`
(`none` when the key is absent, as `getItem` returns `null`). -/
structure OAuthStore where
  oauthState : Option String
deriving DecidableEq

/-- How `handleCallback` can come back: the CSRF throw, the
missing-backend throw, or a completed run returning the token (`none`
models the `null` returned when the exchange fetch fails or is not ok). -/
inductive CallbackOutcome where
  | csrfError
  | backendMissing
  | token (t : Option String)
deriving DecidableEq

/-- One POST to the token-exchange endpoint. -/
structure ExchangeRequest where
  url : String
  code : String
  state : String
deriving DecidableEq

/-- `GitHubOAuth.handleCallback code state`, over the persisted store, the
configured backend URL and the exchange outcome (`fetchToken` is the
`access_token` of a successful exchange, `none` a failed one).  Returns
the outcome, the store afterwards, and every exchange request issued. -/
def handleCallback (store : OAuthStore) (backendUrl : Option String)
    (fetchToken : Option String) (code state : String) :
    CallbackOutcome × OAuthStore × List ExchangeRequest :=
  if store.oauthState ≠ some state then
    (.csrfError, store, [])
  else
    let store' : OAuthStore := ⟨none⟩
    match backendUrl with
    | none => (.backendMissing, store', [])
    | some u =>
      (.token fetchToken, store', [⟨u ++ "/auth/github/callback", code, state⟩])

/-! ## ProofLifecycle (worker.ts + spec §4.4) -/

/-- The three prover steps `generateProof` performs, in source order. -/
inductive ProverCall where
  | execute
  | generate
  | verify
deriving DecidableEq

/-- Modelled from the spec: the lifecycle phases of §4.4.  The concrete
gate (the generate-proof button starting out disabled and being enabled
only by a successful `checkSolution`) lives in the repository's
`index.html` and DOM glue, which are not under src/, so the reachable
phase is carried explicitly here. -/
inductive Phase where
  | editing
  | solved
  | proving
  | proved
deriving DecidableEq

/-- A session of the lifecycle machine: its phase and candidate grid. -/
structure Lifecycle where
  phase : Phase
  grid : Grid

/-- Modelled from the spec: `checkSolution` moves the machine to `Solved`
exactly when the worker's grid checks pass, and back to `Editing`
otherwise. -/
def applyCheckSolution (s : Lifecycle) : Lifecycle :=
  if checkSolution s.grid then { s with phase := .solved }
  else { s with phase := .editing }

/-- Modelled from the spec: any cell edit returns the machine to
`Editing` (§4.4 `Solved`). -/
def applyEdit (s : Lifecycle) (i j v : Nat) : Lifecycle :=
  ⟨.editing, updateGrid s.grid i j v⟩

/-- Modelled from the spec: `generateProof` is rejected unless
`checkSolution` has most recently succeeded (phase `Solved`); when it
runs, it performs `execute`, `generateProof`, `verifyProof` in the
worker's order and ends in `Proved` on a true verification, `Editing`
otherwise. -/
def applyGenerateProof (s : Lifecycle) (verifyOk : Bool) :
    Lifecycle × List ProverCall :=
  if s.phase = .solved then
    ({ s with phase := if verifyOk then .proved else .editing },
      [.execute, .generate, .verify])
  else (s, [])

/-! ## Spec-side definitions for the consistency check (spec §4.1) -/

/-- The spec's "contains each of 1..9 exactly once". -/
def containsOneToNine (l : List Nat) : Prop :=
  ∀ d : Fin 9, l.count (d.val + 1) = 1

instance (l : List Nat) : Decidable (containsOneToNine l) :=
  inferInstanceAs (Decidable (∀ d : Fin 9, l.count (d.val + 1) = 1))

/-- Spec cell test: a violation when the cell is empty or outside [1,9]. -/
def cellViolationSpec (g : Grid) (i j : Nat) : Option Violation :=
  if g i j = 0 then some (.emptyCell i j)
  else if ¬(1 ≤ g i j ∧ g i j ≤ 9) then some (.invalidValue i j)
  else none

/-- All cell violations in row-major order. -/
def cellViolations (g : Grid) : List Violation :=
  (List.range 9).flatMap fun i =>
    (List.range 9).filterMap fun j => cellViolationSpec g i j

/-- All row violations, rows 0..8. -/
def rowViolations (g : Grid) : List Violation :=
  (List.range 9).filterMap fun i =>
    if containsOneToNine (gridRow g i) then none else some (.dupRow i)

/-- All column violations, columns 0..8. -/
def colViolations (g : Grid) : List Violation :=
  (List.range 9).filterMap fun j =>
    if containsOneToNine (getColumn g j) then none else some (.dupCol j)

/-- All box violations, boxes 0..8 with top-left `(⌊b/3⌋·3, (b%3)·3)`. -/
def boxViolations (g : Grid) : List Violation :=
  (List.range 9).filterMap fun b =>
    if containsOneToNine (getBox g b) then none else some (.dupBox b)

/-- Every violation of the spec's fixed scan order: cells row-major, then
rows, then columns, then boxes. -/
def specViolationList (g : Grid) : List Violation :=
  cellViolations g ++ rowViolations g ++ colViolations g ++ boxViolations g

/-- The spec's `isConsistent`: the first violation in scan order, `none`
when the grid is consistent. -/
def isConsistentSpec (g : Grid) : Option Violation :=
  (specViolationList g).head?

/-! ## List scan lemmas -/

theorem findSome?_eq_head?_filterMap {α β : Type} (f : α → Option β) (l : List α) :
    l.findSome? f = (l.filterMap f).head? := by
  induction l with
  | nil => rfl
  | cons a t ih =>
    rw [List.findSome?_cons, List.filterMap_cons]
    cases h : f a
    · exact ih
    · rfl

theorem findSome?_congr_mem {α β : Type} {f f' : α → Option β} :
    ∀ {l : List α}, (∀ x ∈ l, f x = f' x) → l.findSome? f = l.findSome? f' := by
  intro l
  induction l with
  | nil => intro; rfl
  | cons a t ih =>
    intro h
    rw [List.findSome?_cons, List.findSome?_cons, h a (by simp),
      ih (fun x hx => h x (by simp [hx]))]

theorem filterMap_congr_mem {α β : Type} {f f' : α → Option β} :
    ∀ {l : List α}, (∀ x ∈ l, f x = f' x) → l.filterMap f = l.filterMap f' := by
  intro l
  induction l with
  | nil => intro; rfl
  | cons a t ih =>
    intro h
    rw [List.filterMap_cons, List.filterMap_cons, h a (by simp),
      ih (fun x hx => h x (by simp [hx]))]

theorem head?_append_or {β : Type} (l l' : List β) :
    (l ++ l').head? = l.head?.or l'.head? := by
  cases l <;> simp

theorem head?_flatMap {α β : Type} (g : α → List β) (l : List α) :
    (l.flatMap g).head? = l.findSome? fun a => (g a).head? := by
  induction l with
  | nil => rfl
  | cons a t ih =>
    rw [List.flatMap_cons, List.findSome?_cons, head?_append_or, ih]
    cases h : (g a).head? <;> simp [h]

/-! ## hasAllDigits characterization -/

theorem hasAllDigitsAux_eq_true :
    ∀ (l : List Nat) (seen : List Nat),
      hasAllDigitsAux seen l = true ↔
        (∀ v ∈ l, (1 ≤ v ∧ v ≤ 9) ∧ v ∉ seen) ∧ l.Nodup ∧
          seen.length + l.length = 9 := by
  intro l
  induction l with
  | nil =>
    intro seen
    simp [hasAllDigitsAux]
  | cons v rest ih =>
    intro seen
    by_cases hcond : v < 1 ∨ 9 < v ∨ v ∈ seen
    · simp only [hasAllDigitsAux, if_pos hcond, Bool.false_eq_true, false_iff]
      rintro ⟨hall, -, -⟩
      have hv := hall v (by simp)
      rcases hcond with h | h | h
      · omega
      · omega
      · exact hv.2 h
    · simp only [hasAllDigitsAux, if_neg hcond]
      push_neg at hcond
      rw [ih (v :: seen)]
      simp only [List.mem_cons, List.nodup_cons, List.length_cons]
      constructor
      · rintro ⟨h1, h2, h3⟩
        refine ⟨?_, ⟨?_, h2⟩, by omega⟩
        · rintro u (rfl | hu)
          · exact ⟨⟨by omega, by omega⟩, hcond.2.2⟩
          · have := h1 u hu
            exact ⟨this.1, fun hs => this.2 (Or.inr hs)⟩
        · intro hv
          exact (h1 v hv).2 (Or.inl rfl)
      · rintro ⟨h1, ⟨hvr, h2⟩, h3⟩
        refine ⟨?_, h2, by omega⟩
        intro u hu
        have := h1 u (Or.inr hu)
        refine ⟨this.1, ?_⟩
        rintro (rfl | hs)
        · exact hvr hu
        · exact this.2 hs

theorem hasAllDigits_eq_true (l : List Nat) :
    hasAllDigits l = true ↔
      (∀ v ∈ l, 1 ≤ v ∧ v ≤ 9) ∧ l.Nodup ∧ l.length = 9 := by
  rw [hasAllDigits, hasAllDigitsAux_eq_true]
  simp

theorem nodup_iff_containsOneToNine (l : List Nat) (hlen : l.length = 9)
    (hmem : ∀ v ∈ l, 1 ≤ v ∧ v ≤ 9) : l.Nodup ↔ containsOneToNine l := by
  constructor
  · intro hnd d
    have hsub : l.toFinset ⊆ Finset.Icc 1 9 := by
      intro x hx
      rw [List.mem_toFinset] at hx
      exact Finset.mem_Icc.mpr (hmem x hx)
    have hcard : l.toFinset.card = 9 := by
      rw [List.toFinset_card_of_nodup hnd, hlen]
    have heq : l.toFinset = Finset.Icc 1 9 := by
      apply Finset.eq_of_subset_of_card_le hsub
      rw [hcard]
      simp
    have hdm : (d.val + 1) ∈ l := by
      rw [← List.mem_toFinset, heq, Finset.mem_Icc]
      omega
    have h1 : 0 < l.count (d.val + 1) := List.count_pos_iff.mpr hdm
    have h2 : l.count (d.val + 1) ≤ 1 := List.nodup_iff_count_le_one.mp hnd _
    omega
  · intro hc
    rw [List.nodup_iff_count_le_one]
    intro a
    by_cases ha : a ∈ l
    · have hb := hmem a ha
      have hd : a - 1 < 9 := by omega
      have hcnt : l.count (a - 1 + 1) = 1 := hc ⟨a - 1, hd⟩
      rw [show a - 1 + 1 = a by omega] at hcnt
      omega
    · rw [List.count_eq_zero.mpr ha]
      omega

theorem hasAllDigits_iff_containsOneToNine (l : List Nat) (hlen : l.length = 9)
    (hmem : ∀ v ∈ l, 1 ≤ v ∧ v ≤ 9) :
    hasAllDigits l = true ↔ containsOneToNine l := by
  rw [hasAllDigits_eq_true, ← nodup_iff_containsOneToNine l hlen hmem]
  tauto

/-! ## The isValid scans against the spec lists -/

theorem cellCheck_eq_spec (g : Grid) (i j : Nat) :
    cellCheck g i j = cellViolationSpec g i j := by
  unfold cellCheck cellViolationSpec
  split_ifs <;> first | rfl | omega

theorem cellScan_eq_head? (g : Grid) :
    cellScan g = (cellViolations g).head? := by
  unfold cellScan cellViolations
  rw [head?_flatMap]
  apply findSome?_congr_mem
  intro i _
  rw [findSome?_eq_head?_filterMap]
  exact congrArg _ (filterMap_congr_mem fun j _ => cellCheck_eq_spec g i j)

theorem cellViolations_nil_range (g : Grid) (h : cellViolations g = []) :
    ∀ i j, i < 9 → j < 9 → 1 ≤ g i j ∧ g i j ≤ 9 := by
  intro i j hi hj
  rw [cellViolations, List.flatMap_eq_nil_iff] at h
  have h2 := h i (List.mem_range.mpr hi)
  rw [List.filterMap_eq_nil_iff] at h2
  have h3 := h2 j (List.mem_range.mpr hj)
  unfold cellViolationSpec at h3
  split_ifs at h3 with h4 h5
  · omega

theorem gridRow_length (g : Grid) (i : Nat) : (gridRow g i).length = 9 := rfl

theorem getColumn_length (g : Grid) (j : Nat) : (getColumn g j).length = 9 := rfl

theorem getBox_length (g : Grid) (b : Nat) : (getBox g b).length = 9 := rfl

theorem gridRow_mem_range (g : Grid) (i : Nat) (hi : i < 9)
    (hr : ∀ i j, i < 9 → j < 9 → 1 ≤ g i j ∧ g i j ≤ 9) :
    ∀ v ∈ gridRow g i, 1 ≤ v ∧ v ≤ 9 := by
  intro v hv
  rw [gridRow, List.mem_map] at hv
  obtain ⟨j, hj, rfl⟩ := hv
  exact hr i j hi (List.mem_range.mp hj)

theorem getColumn_mem_range (g : Grid) (j : Nat) (hj : j < 9)
    (hr : ∀ i j, i < 9 → j < 9 → 1 ≤ g i j ∧ g i j ≤ 9) :
    ∀ v ∈ getColumn g j, 1 ≤ v ∧ v ≤ 9 := by
  intro v hv
  rw [getColumn, List.mem_map] at hv
  obtain ⟨i, hi, rfl⟩ := hv
  exact hr i j (List.mem_range.mp hi) hj

theorem getBox_mem_range (g : Grid) (b : Nat) (hb : b < 9)
    (hr : ∀ i j, i < 9 → j < 9 → 1 ≤ g i j ∧ g i j ≤ 9) :
    ∀ v ∈ getBox g b, 1 ≤ v ∧ v ≤ 9 := by
  intro v hv
  rw [getBox, List.mem_flatMap] at hv
  obtain ⟨i, hi, hv⟩ := hv
  rw [List.mem_map] at hv
  obtain ⟨j, hj, rfl⟩ := hv
  rw [List.mem_range] at hi hj
  exact hr _ _ (by omega) (by omega)

theorem rowScan_eq_head? (g : Grid)
    (hr : ∀ i j, i < 9 → j < 9 → 1 ≤ g i j ∧ g i j ≤ 9) :
    rowScan g = (rowViolations g).head? := by
  unfold rowScan rowViolations
  rw [findSome?_eq_head?_filterMap]
  refine congrArg _ (filterMap_congr_mem fun i hi => ?_)
  rw [List.mem_range] at hi
  have hiff := hasAllDigits_iff_containsOneToNine (gridRow g i)
    (gridRow_length g i) (gridRow_mem_range g i hi hr)
  by_cases hc : containsOneToNine (gridRow g i)
  · rw [if_pos (hiff.mpr hc), if_pos hc]
  · rw [if_neg (fun hb => hc (hiff.mp hb)), if_neg hc]

theorem colScan_eq_head? (g : Grid)
    (hr : ∀ i j, i < 9 → j < 9 → 1 ≤ g i j ∧ g i j ≤ 9) :
    colScan g = (colViolations g).head? := by
  unfold colScan colViolations
  rw [findSome?_eq_head?_filterMap]
  refine congrArg _ (filterMap_congr_mem fun j hj => ?_)
  rw [List.mem_range] at hj
  have hiff := hasAllDigits_iff_containsOneToNine (getColumn g j)
    (getColumn_length g j) (getColumn_mem_range g j hj hr)
  by_cases hc : containsOneToNine (getColumn g j)
  · rw [if_pos (hiff.mpr hc), if_pos hc]
  · rw [if_neg (fun hb => hc (hiff.mp hb)), if_neg hc]

theorem boxScan_eq_head? (g : Grid)
    (hr : ∀ i j, i < 9 → j < 9 → 1 ≤ g i j ∧ g i j ≤ 9) :
    boxScan g = (boxViolations g).head? := by
  unfold boxScan boxViolations
  rw [findSome?_eq_head?_filterMap]
  refine congrArg _ (filterMap_congr_mem fun b hb => ?_)
  rw [List.mem_range] at hb
  have hiff := hasAllDigits_iff_containsOneToNine (getBox g b)
    (getBox_length g b) (getBox_mem_range g b hb hr)
  by_cases hc : containsOneToNine (getBox g b)
  · rw [if_pos (hiff.mpr hc), if_pos hc]
  · rw [if_neg (fun hb => hc (hiff.mp hb)), if_neg hc]

theorem isValid_eq_isConsistentSpec (g : Grid) :
    isValid g = isConsistentSpec g := by
  unfold isValid isConsistentSpec specViolationList
  rw [cellScan_eq_head?]
  cases hc : cellViolations g with
  | cons v rest => simp [hc]
  | nil =>
    have hr := cellViolations_nil_range g hc
    rw [rowScan_eq_head? g hr, colScan_eq_head? g hr, boxScan_eq_head? g hr]
    simp [head?_append_or, Option.or_assoc]

/-! ## Field sampler bounds -/

theorem foldl_be_bound :
    ∀ (l : List Nat) (x k : Nat), x < 2 ^ k → (∀ b ∈ l, b < 256) →
      l.foldl (fun x b => (x <<< 8) ||| b) x < 2 ^ (k + 8 * l.length) := by
  intro l
  induction l with
  | nil =>
    intro x k hx _
    simpa using hx
  | cons b t ih =>
    intro x k hx hb
    have hstep : (x <<< 8) ||| b < 2 ^ (k + 8) := by
      apply Nat.or_lt_two_pow
      · rw [Nat.shiftLeft_eq, pow_add]
        exact (Nat.mul_lt_mul_right (show 0 < 2 ^ 8 by norm_num)).mpr hx
      · calc b < 256 := hb b (by simp)
          _ ≤ 2 ^ (k + 8) := by
            calc (256 : Nat) = 2 ^ 8 := by norm_num
              _ ≤ 2 ^ (k + 8) := Nat.pow_le_pow_right (by norm_num) (by omega)
    have hrec := ih ((x <<< 8) ||| b) (k + 8) hstep (fun u hu => hb u (by simp [hu]))
    rw [List.foldl_cons]
    calc t.foldl (fun x b => (x <<< 8) ||| b) ((x <<< 8) ||| b)
        < 2 ^ (k + 8 + 8 * t.length) := hrec
      _ ≤ 2 ^ (k + 8 * (b :: t).length) := by
          apply Nat.pow_le_pow_right (by norm_num)
          simp
          omega

theorem maskedCandidate_lt (bytes : List Nat) (hlen : bytes.length = 32)
    (hb : ∀ b ∈ bytes, b < 256) :
    beBytesToNat (maskTopTwoBits bytes) < 2 ^ 254 := by
  cases bytes with
  | nil => simp at hlen
  | cons b rest =>
    rw [maskTopTwoBits, beBytesToNat, List.foldl_cons]
    have hmask : b &&& 0x3f ≤ 0x3f := Nat.and_le_right
    have h0 : (0 <<< 8) ||| (b &&& 0x3f) < 2 ^ 6 := by
      rw [Nat.zero_shiftLeft, Nat.zero_or]
      omega
    have hrest : ∀ u ∈ rest, u < 256 := fun u hu => hb u (by simp [hu])
    have hbound := foldl_be_bound rest ((0 <<< 8) ||| (b &&& 0x3f)) 6 h0 hrest
    have hl : rest.length = 31 := by simpa using hlen
    rw [hl] at hbound
    simpa using hbound

theorem generateFieldElement_some_lt (draws : Nat → List Nat) :
    ∀ (fuel k x : Nat), generateFieldElement draws k fuel = some x → x < MODULUS := by
  intro fuel
  induction fuel with
  | zero =>
    intro k x h
    simp [generateFieldElement] at h
  | succ n ih =>
    intro k x h
    simp only [generateFieldElement] at h
    by_cases hc : beBytesToNat (maskTopTwoBits (draws k)) < MODULUS
    · rw [if_pos hc] at h
      cases h
      exact hc
    · rw [if_neg hc] at h
      exact ih (k + 1) x h

/-! ## Claim theorems -/

/-- C1: every value `generateFieldElement` returns satisfies `x < p` for
`p = MODULUS`: masking the top 2 bits of the most-significant of the 32
drawn bytes makes the big-endian candidate less than `2^254`, and the
rejection loop accepts a candidate only when it is below `p`, so an
accepted output never equals or exceeds `p` (and `0 ≤ x` holds as the
value is a natural number). -/
theorem generateFieldElement_in_field :
    (∀ bytes : List Nat, bytes.length = 32 → (∀ b ∈ bytes, b < 256) →
      beBytesToNat (maskTopTwoBits bytes) < 2 ^ 254) ∧
    (∀ (draws : Nat → List Nat) (fuel k x : Nat),
      generateFieldElement draws k fuel = some x → x < MODULUS) :=
  ⟨maskedCandidate_lt, fun draws => generateFieldElement_some_lt draws⟩

/-- Witness for C1 at concrete inputs: the all-255 draw masks below
`2^254`, and a run on the all-zero draw returns an accepted value below
the modulus. -/
theorem generateFieldElement_in_field_witness :
    beBytesToNat (maskTopTwoBits (List.replicate 32 255)) < 2 ^ 254 ∧
      (0 : Nat) < MODULUS :=
  ⟨generateFieldElement_in_field.1 (List.replicate 32 255) (by decide) (by decide),
   generateFieldElement_in_field.2 (fun _ => List.replicate 32 0) 1 0 0 (by decide)⟩

/-- C2: `SudokuValidator.isValid` reports exactly the first violation of
the fixed scan order — every cell row-major checked for being empty or
outside [1,9], then rows 0..8 for containing 1..9 exactly once, then
columns 0..8, then boxes 0..8 (box `b` at top-left `(⌊b/3⌋·3, (b%3)·3)`) —
and is valid with no violation exactly when no check fails. -/
theorem isValid_first_violation (g : Grid) :
    isValid g = isConsistentSpec g ∧
      (isValid g = none ↔ specViolationList g = []) :=
  ⟨isValid_eq_isConsistentSpec g, by
    rw [isValid_eq_isConsistentSpec g, isConsistentSpec]
    exact List.head?_eq_none_iff⟩

/-- C8: `getConflicts` on the official challenge puzzle at the empty cell
(0,2) with candidate value 5 returns exactly one conflict, a row conflict
for row 0, and no column or box conflict. -/
theorem getConflicts_challenge_cell02 :
    getConflicts CHALLENGE_PUZZLE 0 2 5 = [⟨ConflictType.row, 0⟩] := by decide

theorem if_false_true_eq_true (p : Prop) [Decidable p] :
    (if p then false else true) = true ↔ ¬p := by
  split <;> simp_all

theorem matchesChallenge_eq_true_iff (solution challenge : Grid) :
    matchesChallenge solution challenge = true ↔
      ∀ i j, i < 9 → j < 9 → challenge i j ≠ 0 →
        solution i j = challenge i j := by
  rw [matchesChallenge]
  simp only [List.all_eq_true, List.mem_range, if_false_true_eq_true]
  constructor
  · intro h i j hi hj hch
    by_cases hs : solution i j = challenge i j
    · exact hs
    · exact absurd ⟨hch, hs⟩ (h i hi j hj)
  · intro h i hi j hj
    rintro ⟨hch, hs⟩
    exact hs (h i j hi hj hch)

/-- C7: `matchesChallenge candidate challenge` is true iff every non-zero
challenge cell holds the same value in the candidate (zero challenge
cells place no constraint); consequently changing any one non-zero
challenge cell of a matching candidate to a different digit makes it
return false. -/
theorem matchesChallenge_spec :
    (∀ solution challenge : Grid,
      matchesChallenge solution challenge = true ↔
        ∀ i j, i < 9 → j < 9 → challenge i j ≠ 0 →
          solution i j = challenge i j) ∧
    (∀ (solution challenge : Grid) (i j v : Nat), i < 9 → j < 9 →
      challenge i j ≠ 0 → matchesChallenge solution challenge = true →
      v ≠ challenge i j →
      matchesChallenge (updateGrid solution i j v) challenge = false) := by
  refine ⟨matchesChallenge_eq_true_iff, ?_⟩
  intro solution challenge i j v hi hj hch _ hv
  cases hm : matchesChallenge (updateGrid solution i j v) challenge
  · rfl
  · exfalso
    have heq := (matchesChallenge_eq_true_iff _ _).mp hm i j hi hj hch
    simp only [updateGrid, and_self, if_pos] at heq
    exact hv heq

/-- Witness for C7: the canonical solved grid matches the official
challenge (here checked at its clue (0,0)), and flipping the clue cell
(0,0) of the solved grid to 9 makes `matchesChallenge` false. -/
theorem matchesChallenge_spec_witness :
    SOLVED_PUZZLE 0 0 = CHALLENGE_PUZZLE 0 0 ∧
    matchesChallenge (updateGrid SOLVED_PUZZLE 0 0 9) CHALLENGE_PUZZLE = false :=
  ⟨(matchesChallenge_spec.1 SOLVED_PUZZLE CHALLENGE_PUZZLE).mp (by decide) 0 0
      (by decide) (by decide) (by decide),
   matchesChallenge_spec.2 SOLVED_PUZZLE CHALLENGE_PUZZLE 0 0 9 (by decide)
      (by decide) (by decide) (by decide) (by decide)⟩

theorem mem_ite_singleton {α : Type} (e x : α) (c : Prop) [Decidable c] :
    (e ∈ if c then [x] else ([] : List α)) ↔ c ∧ e = x := by
  split <;> simp_all

/-- C10: `getConflicts` reports a box conflict exactly when some cell of
the target's 3×3 box holds the value at a row index different from the
target row AND a column index different from the target column; a box
duplicate sharing the target's row or column is never reported as a box
conflict. -/
theorem getConflicts_box_characterization (g : Grid) (row col value : Nat) :
    (∃ e ∈ getConflicts g row col value, e.type = ConflictType.box) ↔
      ∃ di dj, di < 3 ∧ dj < 3 ∧
        row / 3 * 3 + di ≠ row ∧ col / 3 * 3 + dj ≠ col ∧
        g (row / 3 * 3 + di) (col / 3 * 3 + dj) = value := by
  simp only [getConflicts, List.mem_append, mem_ite_singleton]
  constructor
  · rintro ⟨e, ((⟨-, rfl⟩ | ⟨-, rfl⟩) | ⟨hhit, rfl⟩), htype⟩
    · exact absurd htype (by simp)
    · exact absurd htype (by simp)
    · simp only [List.any_eq_true, List.mem_range, Bool.and_eq_true,
        decide_eq_true_eq] at hhit
      obtain ⟨di, hdi, dj, hdj, ⟨hne1, hne2⟩, hval⟩ := hhit
      exact ⟨di, dj, hdi, hdj, hne1, hne2, hval⟩
  · rintro ⟨di, dj, hdi, hdj, hne1, hne2, hval⟩
    refine ⟨⟨ConflictType.box, row / 3 * 3 + col / 3⟩, Or.inr ⟨?_, rfl⟩, rfl⟩
    simp only [List.any_eq_true, List.mem_range, Bool.and_eq_true,
      decide_eq_true_eq]
    exact ⟨di, hdi, dj, hdj, ⟨hne1, hne2⟩, hval⟩

/-- C6: invoking `generateProof` while the machine is in `Editing` is
rejected with no prover call at all, and a `checkSolution` that fails on
the candidate grid leaves the machine in a state where `generateProof`
is likewise rejected without touching the prover. -/
theorem generateProof_rejected_in_editing :
    (∀ (s : Lifecycle) (verifyOk : Bool), s.phase = Phase.editing →
      applyGenerateProof s verifyOk = (s, [])) ∧
    (∀ (s : Lifecycle) (verifyOk : Bool), checkSolution s.grid = false →
      applyGenerateProof (applyCheckSolution s) verifyOk =
        (applyCheckSolution s, [])) := by
  constructor
  · intro s verifyOk h
    rw [applyGenerateProof, if_neg (by rw [h]; exact fun hc => nomatch hc)]
  · intro s verifyOk h
    have hph : (applyCheckSolution s).phase = Phase.editing := by
      rw [applyCheckSolution, if_neg (by simp [h])]
    rw [applyGenerateProof, if_neg (by simp [hph])]

/-- Witness for C6: a fresh editing session on the challenge grid rejects
`generateProof`, and so does the state after a failed `checkSolution` on
the (incomplete) challenge grid. -/
theorem generateProof_rejected_in_editing_witness :
    applyGenerateProof ⟨Phase.editing, CHALLENGE_PUZZLE⟩ true =
      (⟨Phase.editing, CHALLENGE_PUZZLE⟩, []) ∧
    applyGenerateProof (applyCheckSolution ⟨Phase.editing, CHALLENGE_PUZZLE⟩) true =
      (applyCheckSolution ⟨Phase.editing, CHALLENGE_PUZZLE⟩, []) :=
  ⟨generateProof_rejected_in_editing.1 _ true rfl,
   generateProof_rejected_in_editing.2 ⟨Phase.editing, CHALLENGE_PUZZLE⟩ true
      (by decide)⟩

/-- C4: a callback whose `state` differs from the persisted `oauth_state`
fails with the CSRF error and issues no token-exchange request. -/
theorem handleCallback_csrf_no_exchange (store : OAuthStore)
    (backendUrl fetchToken : Option String) (code state : String)
    (h : store.oauthState ≠ some state) :
    (handleCallback store backendUrl fetchToken code state).1 =
      CallbackOutcome.csrfError ∧
    (handleCallback store backendUrl fetchToken code state).2.2 = [] := by
  rw [handleCallback, if_pos h]
  exact ⟨rfl, rfl⟩

/-- Witness for C4: with persisted state `"s1"` and supplied state
`"s2"`, the callback is a CSRF error and the exchange list is empty. -/
theorem handleCallback_csrf_no_exchange_witness :
    (handleCallback ⟨some "s1"⟩ (some "https://backend") (some "tok")
        "code" "s2").1 = CallbackOutcome.csrfError ∧
    (handleCallback ⟨some "s1"⟩ (some "https://backend") (some "tok")
        "code" "s2").2.2 = [] :=
  handleCallback_csrf_no_exchange ⟨some "s1"⟩ (some "https://backend")
    (some "tok") "code" "s2" (by decide)

/-- C5 counterexample: after a callback whose state mismatches, the
persisted `oauth_state` is NOT erased — the CSRF throw precedes the
`removeItem`, so the stored value survives the attempt. -/
theorem handleCallback_mismatch_keeps_state :
    (handleCallback ⟨some "s1"⟩ (some "https://backend") (some "tok")
        "code" "s2").2.1 = ⟨some "s1"⟩ := by decide

/-- C5 (amended): the persisted `oauth_state` is erased immediately after
a SUCCESSFUL comparison, whatever happens afterwards; on a mismatching
comparison the CSRF error is raised before the erase, so the persisted
value remains unchanged. -/
theorem handleCallback_state_erasure (store : OAuthStore)
    (backendUrl fetchToken : Option String) (code state : String) :
    (store.oauthState = some state →
      (handleCallback store backendUrl fetchToken code state).2.1 =
        ⟨none⟩) ∧
    (store.oauthState ≠ some state →
      (handleCallback store backendUrl fetchToken code state).2.1 =
        store) := by
  constructor
  · intro h
    rw [handleCallback, if_neg (by simp [h])]
    cases backendUrl <;> rfl
  · intro h
    rw [handleCallback, if_pos h]

/-- Witness for C5 (amended): a matching callback erases the state even
when the backend is unconfigured, and a mismatching one keeps it. -/
theorem handleCallback_state_erasure_witness :
    (handleCallback ⟨some "s1"⟩ none (some "tok") "code" "s1").2.1 =
      (⟨none⟩ : OAuthStore) ∧
    (handleCallback ⟨some "s1"⟩ (some "https://backend") none "code" "s3").2.1 =
      (⟨some "s1"⟩ : OAuthStore) :=
  ⟨(handleCallback_state_erasure ⟨some "s1"⟩ none (some "tok") "code" "s1").1
      (by decide),
   (handleCallback_state_erasure ⟨some "s1"⟩ (some "https://backend") none
      "code" "s3").2 (by decide)⟩

/-! ## Hex codec lemmas -/

theorem byteToHexChars_length (b : Nat) : (byteToHexChars b).length = 2 := by
  rw [byteToHexChars]
  split <;> rfl

theorem byteToHexChars_pair (b : Nat) : ∃ c1 c2, byteToHexChars b = [c1, c2] := by
  rw [byteToHexChars]
  split
  · exact ⟨_, _, rfl⟩
  · exact ⟨_, _, rfl⟩

theorem hexChar_props : ∀ v, v < 16 →
    isHexDigitChar (hexChar v) = true ∧ isLowerHexChar (hexChar v) = true ∧
      isWsChar (hexChar v) = false ∧ hexChar v ≠ 'x' := by decide

theorem hexCharVal_hexChar : ∀ v, v < 16 → hexCharVal (hexChar v) = v := by decide

theorem byteToHexChars_props (b : Nat) (hb : b < 256) :
    ∀ c ∈ byteToHexChars b,
      isHexDigitChar c = true ∧ isLowerHexChar c = true ∧
        isWsChar c = false ∧ c ≠ 'x' := by
  intro c hc
  by_cases h16 : b < 16
  · rw [byteToHexChars, if_pos h16] at hc
    rcases List.mem_cons.mp hc with rfl | hc2
    · decide
    · rcases List.mem_cons.mp hc2 with rfl | h
      · exact hexChar_props b h16
      · simp at h
  · rw [byteToHexChars, if_neg h16] at hc
    rcases List.mem_cons.mp hc with rfl | hc2
    · exact hexChar_props (b / 16) (by omega)
    · rcases List.mem_cons.mp hc2 with rfl | h
      · exact hexChar_props (b % 16) (by omega)
      · simp at h

theorem encode_chars_props (bytes : List Nat) (hb : ∀ b ∈ bytes, b < 256) :
    ∀ c ∈ bytes.flatMap byteToHexChars,
      isHexDigitChar c = true ∧ isLowerHexChar c = true ∧
        isWsChar c = false ∧ c ≠ 'x' := by
  intro c hc
  rw [List.mem_flatMap] at hc
  obtain ⟨b, hbm, hcb⟩ := hc
  exact byteToHexChars_props b (hb b hbm) c hcb

theorem dropWhile_eq_self_of_all_false {α : Type} (p : α → Bool) :
    ∀ l : List α, (∀ c ∈ l, p c = false) → l.dropWhile p = l := by
  intro l h
  cases l with
  | nil => rfl
  | cons a t => simp [List.dropWhile_cons, h a (by simp)]

theorem trimWs_eq_self (l : List Char) (h : ∀ c ∈ l, isWsChar c = false) :
    trimWs l = l := by
  rw [trimWs, dropWhile_eq_self_of_all_false _ l h,
    dropWhile_eq_self_of_all_false _ l.reverse
      (fun c hc => h c (List.mem_reverse.mp hc)),
    List.reverse_reverse]

theorem strip0x_eq_self (l : List Char) (h : ∀ c ∈ l, c ≠ 'x') :
    strip0x l = l := by
  rw [strip0x, if_neg]
  intro heq
  have hx : 'x' ∈ l.take 2 := by rw [heq]; simp
  exact h _ (List.take_subset 2 l hx) rfl

theorem filter_not_ws_eq_self (l : List Char)
    (h : ∀ c ∈ l, isWsChar c = false) :
    l.filter (fun c => !isWsChar c) = l :=
  List.filter_eq_self.mpr (fun c hc => by rw [h c hc]; rfl)

theorem flatMap_hex_length (bytes : List Nat) :
    (bytes.flatMap byteToHexChars).length = 2 * bytes.length := by
  induction bytes with
  | nil => rfl
  | cons b t ih =>
    rw [List.flatMap_cons, List.length_append, byteToHexChars_length, ih]
    simp only [List.length_cons]
    omega

theorem hexPairsToBytes_flatMap :
    ∀ bytes : List Nat, (∀ b ∈ bytes, b < 256) →
      hexPairsToBytes (bytes.flatMap byteToHexChars) = bytes := by
  intro bytes
  induction bytes with
  | nil => intro; rfl
  | cons b t ih =>
    intro h
    have hb := h b (by simp)
    have ht := ih (fun u hu => h u (by simp [hu]))
    rw [List.flatMap_cons]
    by_cases h16 : b < 16
    · rw [byteToHexChars, if_pos h16]
      show hexPairsToBytes ('0' :: hexChar b :: t.flatMap byteToHexChars) = b :: t
      simp only [hexPairsToBytes]
      rw [ht, show hexCharVal '0' = 0 from rfl, hexCharVal_hexChar b h16]
      norm_num
    · rw [byteToHexChars, if_neg h16]
      show hexPairsToBytes
        (hexChar (b / 16) :: hexChar (b % 16) :: t.flatMap byteToHexChars) = b :: t
      simp only [hexPairsToBytes]
      rw [ht, hexCharVal_hexChar (b / 16) (by omega),
        hexCharVal_hexChar (b % 16) (by omega)]
      congr 1
      omega

theorem decode_encode_roundtrip (bytes : List Nat) (hne : bytes ≠ [])
    (hb : ∀ b ∈ bytes, b < 256) :
    decodeProofHex (encodeProofHex bytes) = some bytes := by
  have hprops := encode_chars_props bytes hb
  have hnws : ∀ c ∈ bytes.flatMap byteToHexChars, isWsChar c = false :=
    fun c hc => (hprops c hc).2.2.1
  have hnx : ∀ c ∈ bytes.flatMap byteToHexChars, c ≠ 'x' :=
    fun c hc => (hprops c hc).2.2.2
  have hcond : (bytes.flatMap byteToHexChars) ≠ [] ∧
      (bytes.flatMap byteToHexChars).all isHexDigitChar ∧
      (bytes.flatMap byteToHexChars).length % 2 = 0 := by
    refine ⟨?_, ?_, ?_⟩
    · intro hnil
      apply hne
      have hl := congrArg List.length hnil
      rw [flatMap_hex_length] at hl
      simp only [List.length_nil] at hl
      rcases bytes with _ | _
      · rfl
      · simp at hl
    · rw [List.all_eq_true]
      exact fun c hc => (hprops c hc).1
    · rw [flatMap_hex_length]
      omega
  have h1 : decodeProofHex (encodeProofHex bytes) =
      decodeCleanHex ((strip0x (trimWs (bytes.flatMap byteToHexChars))).filter
        (fun c => !isWsChar c)) := rfl
  rw [h1, trimWs_eq_self _ hnws, strip0x_eq_self _ hnx,
    filter_not_ws_eq_self _ hnws, decodeCleanHex, if_pos hcond,
    hexPairsToBytes_flatMap bytes hb]

/-- C3 (amended): for every proof artifact whose proof has at least one
byte (with bytes below 256, as in a `Uint8Array`), encoding the proof as
hex — two lowercase hex digits per byte, so the string is lowercase,
even-length and `0x`-free — and then decoding it (which strips an
optional `0x` and rejects non-hex or odd-length or empty input) yields
the byte-identical proof and the element-wise-identical public inputs.
The empty proof is excluded: its encoding is the empty string, which the
decoder's nonempty-hex regex rejects. -/
theorem proofExport_roundtrip (proofBytes : List Nat)
    (publicInputs : List String) (challengeId : String) (timeInMs : Nat)
    (hne : proofBytes ≠ []) (hb : ∀ b ∈ proofBytes, b < 256) :
    toArtifact (prepareProofExport proofBytes publicInputs challengeId timeInMs) =
        some ⟨proofBytes, publicInputs⟩ ∧
      (prepareProofExport proofBytes publicInputs challengeId
          timeInMs).proof.length = 2 * proofBytes.length ∧
      (prepareProofExport proofBytes publicInputs challengeId
          timeInMs).proof.data.all isLowerHexChar = true := by
  refine ⟨?_, ?_, ?_⟩
  · have hp : (prepareProofExport proofBytes publicInputs challengeId
        timeInMs).proof = encodeProofHex proofBytes := rfl
    rw [toArtifact, hp, decode_encode_roundtrip proofBytes hne hb]
    rfl
  · exact flatMap_hex_length proofBytes
  · rw [List.all_eq_true]
    exact fun c hc => (encode_chars_props proofBytes hb c hc).2.1

/-- C3 counterexample: the claim quantifies over every artifact, but the
empty proof does not round-trip — its hex encoding is the empty string
and the decoder rejects it, so no artifact is recovered at all. -/
theorem proofExport_empty_no_roundtrip :
    toArtifact (prepareProofExport [] ["pi"] "cid" 0) = none := by decide

/-- Witness for C3 (amended) on a concrete three-byte proof. -/
theorem proofExport_roundtrip_witness :
    toArtifact (prepareProofExport [0, 26, 255] ["1", "2"] "cid" 7) =
        some ⟨[0, 26, 255], ["1", "2"]⟩ ∧
      (prepareProofExport [0, 26, 255] ["1", "2"] "cid" 7).proof.length =
        2 * ([0, 26, 255] : List Nat).length ∧
      (prepareProofExport [0, 26, 255] ["1", "2"] "cid" 7).proof.data.all
        isLowerHexChar = true :=
  proofExport_roundtrip [0, 26, 255] ["1", "2"] "cid" 7 (by decide) (by decide)

/-! ## hashProof lemmas -/

theorem flatMap_hex_take :
    ∀ (l : List Nat) (k : Nat),
      (l.flatMap byteToHexChars).take (2 * k) =
        (l.take k).flatMap byteToHexChars := by
  intro l
  induction l with
  | nil => intro k; simp
  | cons b t ih =>
    intro k
    cases k with
    | zero => simp
    | succ n =>
      obtain ⟨c1, c2, hc⟩ := byteToHexChars_pair b
      rw [List.flatMap_cons, hc, List.take_succ_cons, List.flatMap_cons, hc]
      show (c1 :: c2 :: t.flatMap byteToHexChars).take (2 * (n + 1)) =
        c1 :: c2 :: (t.take n).flatMap byteToHexChars
      rw [show 2 * (n + 1) = 2 * n + 1 + 1 from by omega, List.take_succ_cons,
        List.take_succ_cons, ih n]

theorem flatMap_hex_drop :
    ∀ (l : List Nat) (k : Nat),
      (l.flatMap byteToHexChars).drop (2 * k) =
        (l.drop k).flatMap byteToHexChars := by
  intro l
  induction l with
  | nil => intro k; simp
  | cons b t ih =>
    intro k
    cases k with
    | zero => simp
    | succ n =>
      obtain ⟨c1, c2, hc⟩ := byteToHexChars_pair b
      rw [List.flatMap_cons, hc, List.drop_succ_cons]
      show (c1 :: c2 :: t.flatMap byteToHexChars).drop (2 * (n + 1)) =
        (t.drop n).flatMap byteToHexChars
      rw [show 2 * (n + 1) = 2 * n + 1 + 1 from by omega, List.drop_succ_cons,
        List.drop_succ_cons, ih n]

/-- C9 (amended): the displayed fingerprint is derived from the first and
the last bytes of the FIRST 32 BYTES of the proof only: any two proofs
agreeing on their first 32 bytes display the same fingerprint, and for a
proof of at least 32 bytes the display is the hex of bytes 0..3, an
ellipsis, and the hex of bytes 28..31.  Proofs differing only after byte
31 therefore display identical fingerprints, contrary to the claim's
final-bytes sensitivity. -/
theorem hashProof_first32 :
    (∀ p q : List Nat, p.take 32 = q.take 32 → hashProof p = hashProof q) ∧
    (∀ p : List Nat, 32 ≤ p.length → (∀ b ∈ p, b < 256) →
      hashProof p = ⟨(p.take 4).flatMap byteToHexChars ++
        ('.' :: '.' :: '.' ::
          ((p.take 32).drop 28).flatMap byteToHexChars)⟩) := by
  constructor
  · intro p q h
    simp only [hashProof]
    rw [h]
  · intro p hlen _
    simp only [hashProof]
    refine congrArg String.mk ?_
    have hlen32 : (p.take 32).length = 32 := by
      rw [List.length_take]
      omega
    have hL : ((p.take 32).flatMap byteToHexChars).length = 64 := by
      rw [flatMap_hex_length, hlen32]
    have h1 : ((p.take 32).flatMap byteToHexChars).take 8 =
        (p.take 4).flatMap byteToHexChars := by
      rw [show (8 : Nat) = 2 * 4 from rfl, flatMap_hex_take, List.take_take]
      norm_num
    have h2 : ((p.take 32).flatMap byteToHexChars).drop
        (((p.take 32).flatMap byteToHexChars).length - 8) =
        ((p.take 32).drop 28).flatMap byteToHexChars := by
      rw [hL, show (64 - 8 : Nat) = 2 * 28 from rfl, flatMap_hex_drop]
    rw [h1, h2]

/-- C9 counterexample: two proofs that differ only in their final byte
(they agree on the first 32 bytes and have equal length) display the SAME
truncated hash, refuting that the fingerprint depends on the proof's last
bytes. -/
theorem hashProof_ignores_final_bytes :
    (List.replicate 32 0 ++ [1] : List Nat) ≠ List.replicate 32 0 ++ [2] ∧
    (List.replicate 32 0 ++ [1] : List Nat).take 32 =
      (List.replicate 32 0 ++ [2] : List Nat).take 32 ∧
    hashProof (List.replicate 32 0 ++ [1]) =
      hashProof (List.replicate 32 0 ++ [2]) := by
  refine ⟨by decide, by decide, ?_⟩
  decide

/-- Witness for C9 (amended): two 33-byte proofs agreeing on their first
32 bytes share a fingerprint, and a concrete 33-byte proof displays the
slices of its first 32 bytes. -/
theorem hashProof_first32_witness :
    hashProof (List.replicate 32 7 ++ [1]) =
      hashProof (List.replicate 32 7 ++ [3]) ∧
    hashProof (List.replicate 33 5) =
      ⟨((List.replicate 33 5 : List Nat).take 4).flatMap byteToHexChars ++
        ('.' :: '.' :: '.' ::
          (((List.replicate 33 5 : List Nat).take 32).drop 28).flatMap
            byteToHexChars)⟩ :=
  ⟨hashProof_first32.1 _ _ (by decide),
   hashProof_first32.2 (List.replicate 33 5) (by decide) (by decide)⟩
